import Mathlib

/-!
Verification of the `RGBAImage` pixel-buffer / rasterizer utility and the
composition helpers of the OpenXR conformance test suite
(`src/conformance/framework/RGBAImage.cpp` and friends), as a shallow
embedding in Lean 4.

C++ `int` values are modelled as `Int`, `uint8_t` channel values as `Nat`
(kept below 256 by the operations), `float` values as `ℚ` (exact rational
arithmetic standing in for floating point), and the flat row-major pixel
buffer `std::vector<RGBA8Color>` as a total function `Int → RGBA8Color`
whose valid indices are `[0, width*height)`; an out-of-range flat index in
a write list corresponds to an out-of-buffer write in the C++ code.
-/

namespace Conformance

/-- 8-bit per channel RGBA pixel (`RGBA8Color`, R8G8B8A8_UNORM). -/
structure RGBA8Color where
  R : Nat
  G : Nat
  B : Nat
  A : Nat
deriving DecidableEq, Repr

/-- Normalized float RGBA color (`XrColor4f`), channels as rationals. -/
structure XrColor4f where
  r : ℚ
  g : ℚ
  b : ℚ
  a : ℚ
deriving DecidableEq, Repr

/-- Axis-aligned integer rectangle (`XrRect2Di`): offset and extent. -/
structure XrRect2Di where
  offsetX : Int
  offsetY : Int
  extentW : Int
  extentH : Int
deriving DecidableEq, Repr

/-- C cast of a nonnegative-or-negative float to an integer truncates toward
zero (`(int)f`, `(uint8_t)f`). -/
def cTrunc (q : ℚ) : Int :=
  if 0 ≤ q then ⌊q⌋ else -⌊-q⌋

/-- `std::lround`: round half away from zero. -/
def cLround (q : ℚ) : Int :=
  if 0 ≤ q then ⌊q + 1/2⌋ else -⌊-q + 1/2⌋

/-- C cast of a float to `uint8_t` for values in `[0, 256)`: truncation. -/
def truncU8 (q : ℚ) : Nat :=
  (cTrunc q).toNat

/-- `AsRGBA`: convert R32G32B32A32_FLOAT to R8G8B8A8_UNORM; each channel is
`(uint8_t)(255 * c)`. -/
def AsRGBA (r g b a : ℚ) : RGBA8Color :=
  ⟨truncU8 (255 * r), truncU8 (255 * g), truncU8 (255 * b), truncU8 (255 * a)⟩

/-- The in-memory raster image: `width`, `height` (C++ `int`) and the flat
row-major pixel buffer; pixel `(px, py)` lives at flat index
`py * width + px`. -/
structure RGBAImage where
  width : Int
  height : Int
  isSrgb : Bool
  buf : Int → RGBA8Color

/-- Pixel accessor: flat row-major indexing, `pixels[py * width + px]`. -/
def RGBAImage.pixelAt (img : RGBAImage) (px py : Int) : RGBA8Color :=
  img.buf (py * img.width + px)

/-- Perform a list of single-color writes on the flat buffer (each loop
iteration `*(start + col) = color32` appends one flat index). -/
def writeAll (buf : Int → RGBA8Color) (c : RGBA8Color) (l : List Int) : Int → RGBA8Color :=
  l.foldl (fun b i => Function.update b i c) buf

/-- Flat indices written by `DrawRect`'s double loop:
`pixels.data() + ((row + y) * width) + x + col` for `0 ≤ row < h`,
`0 ≤ col < w`. -/
def rectWrites (width x y w h : Int) : List Int :=
  (List.range h.toNat).flatMap fun (row : Nat) =>
    (List.range w.toNat).map fun (col : Nat) =>
      ((row : Int) + y) * width + x + (col : Int)

/-- `RGBAImage::DrawRect`: bounds guard (note: no check for negative `x`/`y`),
then fill the rectangle with the converted color. -/
def RGBAImage.DrawRect (img : RGBAImage) (x y w h : Int) (color : XrColor4f) :
    Except String RGBAImage :=
  if x + w > img.width ∨ y + h > img.height then
    .error "Rectangle out of bounds"
  else
    .ok { img with
          buf := writeAll img.buf (AsRGBA color.r color.g color.b color.a)
                   (rectWrites img.width x y w h) }

/-- Flat indices written by one row of `DrawRectBorder`: top/bottom rows are
filled full width; other rows get a left segment `[0, min thickness w)` and a
right segment `[max (w - thickness) 0, w)`. -/
def borderRowWrites (width x y w h thickness : Int) (row : Nat) : List Int :=
  if (row : Int) < thickness ∨ (row : Int) ≥ h - thickness then
    (List.range w.toNat).map fun (col : Nat) =>
      ((row : Int) + y) * width + x + (col : Int)
  else
    ((List.range (min thickness w).toNat).map fun (col : Nat) =>
        ((row : Int) + y) * width + x + (col : Int))
      ++ ((List.range (w - max (w - thickness) 0).toNat).map fun (col : Nat) =>
        ((row : Int) + y) * width + x + max (w - thickness) 0 + (col : Int))

/-- Flat indices written by `DrawRectBorder`'s row loop. -/
def borderWrites (width x y w h thickness : Int) : List Int :=
  (List.range h.toNat).flatMap fun row => borderRowWrites width x y w h thickness row

/-- `RGBAImage::DrawRectBorder`: full bounds guard (negative offsets and
extents included), then draw the border ring row by row. -/
def RGBAImage.DrawRectBorder (img : RGBAImage) (x y w h thickness : Int)
    (color : XrColor4f) : Except String RGBAImage :=
  if x < 0 ∨ y < 0 ∨ w < 0 ∨ h < 0 ∨ x + w > img.width ∨ y + h > img.height then
    .error "Rectangle out of bounds"
  else
    .ok { img with
          buf := writeAll img.buf (AsRGBA color.r color.g color.b color.a)
                   (borderWrites img.width x y w h thickness) }

/-- Is an `Except` value a success? -/
def exceptIsOk : Except ε α → Bool
  | .ok _ => true
  | .error _ => false

/-- A concrete 4×4 image whose pixels all hold the sentinel value
`(1, 2, 3, 4)`, used to evaluate the drawing routines on concrete inputs. -/
def testImg4 : RGBAImage :=
  ⟨4, 4, false, fun _ => ⟨1, 2, 3, 4⟩⟩

/-- A swapchain's acquisition bookkeeping: the number of outstanding
(acquired but not yet released) images, and the index the next acquire
returns. -/
structure ModelSwapchain where
  outstanding : Nat
  nextIndex : Nat
deriving DecidableEq, Repr

/-- The runtime calls issued by `AcquireWaitReleaseImage`, in order. -/
inductive SwapchainEvent
  | acquire (index : Nat)
  | wait (index : Nat)
  | release (index : Nat)
deriving DecidableEq, Repr

/-- Modelled from the spec: the implementation of
`CompositionHelper::AcquireWaitReleaseImage` is not among the sources (only
its call sites in `test_LayerComposition.cpp` are); per the spec it
"acquires a swapchain image index, waits for it to be renderable, invokes
the caller-supplied writer callback with direct access to the image, and
unconditionally releases the image on all exit paths (including writer
exceptions)".  The writer either succeeds or raises an error of type `ε`;
the release is performed on both paths before the writer's result is
propagated. -/
def AcquireWaitReleaseImage (sc : ModelSwapchain)
    (writer : Nat → Except ε Unit) :
    Except ε Unit × ModelSwapchain × List SwapchainEvent :=
  let index := sc.nextIndex
  let acquired : ModelSwapchain := { sc with outstanding := sc.outstanding + 1 }
  let result := writer index
  let released : ModelSwapchain :=
    { acquired with outstanding := acquired.outstanding - 1 }
  (result, released, [.acquire index, .wait index, .release index])

/-- Process-wide font bookkeeping: `BakedFont` objects constructed so far
are numbered by a counter (distinct numbers are distinct shared objects),
next to a process-wide map that a correct cache would consult. -/
structure FontCacheProcess where
  constructed : Nat
  processCache : List (Int × Nat)
deriving DecidableEq, Repr

/-- `BakedFont::GetOrCreate`: the lookup map `s_bakedFonts` is declared as a
plain local variable (the `static` keyword is absent), so every call starts
from an empty map, misses, constructs a fresh font, inserts it into the
soon-discarded local map, and returns the new font.  The process-wide state
only records that one more `BakedFont` was constructed. -/
def GetOrCreate (pixelHeight : Int) (st : FontCacheProcess) :
    Nat × FontCacheProcess :=
  let s_bakedFonts : List (Int × Nat) := []
  match s_bakedFonts.lookup pixelHeight with
  | some font => (font, st)
  | none =>
    let font := st.constructed
    let _s_bakedFonts2 := (pixelHeight, font) :: s_bakedFonts
    (font, { st with constructed := st.constructed + 1 })

/-- State of the process-wide `RGBAImageCache`: whether `Init` has created
the mutex (`m_cacheMutex`), and the path-keyed map of cached shared images
(`m_imageCache`, image objects numbered). -/
structure RGBAImageCache where
  cacheMutex : Bool
  imageCache : List (String × Nat)
deriving DecidableEq, Repr

/-- Modelled from the spec: `RGBAImageCache::IsValid` is declared in
`RGBAImage.h`, which is not among the sources; per the spec the cache is
"guarded by a mutex that must be explicitly initialized before use", so
validity is the existence of the mutex created by `Init`. -/
def RGBAImageCache.IsValid (st : RGBAImageCache) : Bool :=
  st.cacheMutex

/-- `RGBAImageCache::Init`: create the mutex if it does not exist yet. -/
def RGBAImageCache.Init (st : RGBAImageCache) : RGBAImageCache :=
  if !st.cacheMutex then { st with cacheMutex := true } else st

/-- The two errors `RGBAImageCache::Load` can raise. -/
inductive CacheLoadError
  | notInitialized
  | decodeFailure
deriving DecidableEq, Repr

/-- `RGBAImageCache::Load`, single-threaded run: the pre-initialization
guard, the locked cache lookup, the decode performed outside the lock
(`decoded` is the image `RGBAImage::Load(path)` would produce, `none` when
the decode fails), and the locked `emplace` whose existing entry wins. -/
def RGBAImageCache.Load (st : RGBAImageCache) (path : String)
    (decoded : Option Nat) : Except CacheLoadError (Nat × RGBAImageCache) :=
  if !st.IsValid then
    .error .notInitialized
  else
    match st.imageCache.lookup path with
    | some image => .ok (image, st)
    | none =>
      match decoded with
      | none => .error .decodeFailure
      | some image =>
        match st.imageCache.lookup path with
        | some existing => .ok (existing, st)
        | none =>
          .ok (image, { st with imageCache := (path, image) :: st.imageCache })

/-- One thread's progress through `RGBAImageCache::Load` for a fixed path. -/
inductive LoadThread
  | start
  | missed
  | decoded (image : Nat)
  | finished (ret : Nat)
deriving DecidableEq, Repr

/-- Shared state for concurrent `Load` calls on one path: the cache entry
for the path, a counter handing out the identities of freshly decoded image
objects, the number of decodes performed so far, and each thread's state. -/
structure LoadSystem where
  cacheEntry : Option Nat
  nextImage : Nat
  decodes : Nat
  threads : List LoadThread
deriving DecidableEq, Repr

/-- The interleaving semantics of `RGBAImageCache::Load`: each mutex-guarded
section of the C++ function is one atomic step, and the decode (performed
outside the lock) is another.  `hit`/`miss` are the first locked lookup,
`decode` is `RGBAImage::Load`, and `insert` is the final locked `emplace`,
where an existing entry wins and the newly decoded image is otherwise
published. -/
inductive LoadStep : LoadSystem → LoadSystem → Prop
  | hit (s : LoadSystem) (i v : Nat)
      (hth : s.threads[i]? = some .start)
      (hc : s.cacheEntry = some v) :
      LoadStep s { s with threads := s.threads.set i (.finished v) }
  | miss (s : LoadSystem) (i : Nat)
      (hth : s.threads[i]? = some .start)
      (hc : s.cacheEntry = none) :
      LoadStep s { s with threads := s.threads.set i .missed }
  | decode (s : LoadSystem) (i : Nat)
      (hth : s.threads[i]? = some .missed) :
      LoadStep s { s with
        threads := s.threads.set i (.decoded s.nextImage),
        nextImage := s.nextImage + 1,
        decodes := s.decodes + 1 }
  | insert (s : LoadSystem) (i img : Nat)
      (hth : s.threads[i]? = some (.decoded img)) :
      LoadStep s { s with
        threads := s.threads.set i (.finished (s.cacheEntry.getD img)),
        cacheEntry := some (s.cacheEntry.getD img) }

/-- `n` concurrent `Load` calls on the same path, none started yet. -/
def initLoadSystem (n : Nat) : LoadSystem :=
  ⟨none, 0, 0, List.replicate n .start⟩

/-- The states reachable by interleaving `n` concurrent `Load` calls. -/
def LoadReachable (n : Nat) (s : LoadSystem) : Prop :=
  Relation.ReflTransGen LoadStep (initLoadSystem n) s

/-- Has every thread completed its `Load` call? -/
def allFinished (s : LoadSystem) : Bool :=
  s.threads.all fun th =>
    match th with
    | .finished _ => true
    | _ => false

/-- Per-character layout of one baked glyph (`stbtt_bakedchar`): atlas
coordinates (`unsigned short`), pixel offsets and advance (`float`). -/
structure BakedChar where
  x0 : Nat
  y0 : Nat
  x1 : Nat
  y1 : Nat
  xoff : ℚ
  yoff : ℚ
  xadvance : ℚ
deriving DecidableEq, Repr

/-- A baked font: the glyph atlas width, the single-channel atlas bitmap
(flat index → coverage 0..255), and the baked characters, indexed by
`c - StartChar`.  The atlas contents are produced by the external
`stbtt_BakeFontBitmap` from an external font file, so they are a parameter
of the model. -/
structure BakedFont where
  bitmapWidth : Nat
  glyphBitmap : Int → Nat
  bakedChars : Nat → BakedChar

/-- First baked character, `' '`. -/
def StartChar : Nat := 32

/-- Last baked character, `'~'`. -/
def EndChar : Nat := 126

/-- `BakedFont::GetBakedChar`: characters outside the baked range render as
`'_'` (code 95). -/
def GetBakedChar (font : BakedFont) (c : Char) : BakedChar :=
  let safeChar : Nat := if c.toNat < StartChar ∨ c.toNat > EndChar then 95 else c.toNat
  font.bakedChars (safeChar - StartChar)

/-- Number of leading characters of `text` strictly greater than `' '`:
the iteration count of the lookahead loop
`for (const char* w = text; *w > ' '; w++)`. -/
def wordLen : List Char → Nat
  | [] => 0
  | c :: rest => if 32 < c.toNat then wordLen rest + 1 else 0

/-- The `remainingWordWidth` computed by `PutText`'s lookahead: the loop
body reads `font->GetBakedChar(*text).xadvance` — the advance of the
character at the *current cursor*, not of the looked-at character `*w` — so
it adds that one advance once per leading non-space character. -/
def remainingWordWidth (font : BakedFont) : List Char → ℚ
  | [] => 0
  | c :: rest => (wordLen (c :: rest) : ℚ) * (GetBakedChar font c).xadvance

/-- Modelled from the spec: the width the lookahead is described to
compute, "the sum of the advance metrics of all characters from the
current position up to the next whitespace" — for comparison with
`remainingWordWidth`, the width the code actually computes. -/
def specWordWidth (font : BakedFont) : List Char → ℚ
  | [] => 0
  | c :: rest =>
    if 32 < c.toNat then (GetBakedChar font c).xadvance + specWordWidth font rest
    else 0

/-- One glyph-pixel blend (`PutText`'s inner loop): each of R/G/B/A is
independently updated to
`(uint8_t)(srcGlyphPixel * color) + pixel * (255 - srcGlyphPixel) / 255`
in integer arithmetic; the store back into the `uint8_t` field reduces
mod 256. -/
def blendPixel (srcGlyphPixel : Nat) (color : XrColor4f)
    (pixel : RGBA8Color) : RGBA8Color :=
  { R := (truncU8 ((srcGlyphPixel : ℚ) * color.r) +
          pixel.R * (255 - srcGlyphPixel) / 255) % 256,
    G := (truncU8 ((srcGlyphPixel : ℚ) * color.g) +
          pixel.G * (255 - srcGlyphPixel) / 255) % 256,
    B := (truncU8 ((srcGlyphPixel : ℚ) * color.b) +
          pixel.B * (255 - srcGlyphPixel) / 255) % 256,
    A := (truncU8 ((srcGlyphPixel : ℚ) * color.a) +
          pixel.A * (255 - srcGlyphPixel) / 255) % 256 }

/-- The glyph pixels actually written while copying one glyph at cursor
(`xadvance`, `yadvance`): destination x/y and the coverage read from the
atlas.  Rows and pixels whose destination fails the canvas or rectangle
bounds checks are skipped (`continue`), producing no write and no error. -/
def glyphWrites (font : BakedFont) (bc : BakedChar) (rect : XrRect2Di)
    (width height : Int) (xadvance : ℚ) (yadvance : Int) :
    List (Int × Int × Nat) :=
  (List.range ((bc.y1 : Int) - (bc.y0 : Int)).toNat).flatMap fun (cy : Nat) =>
    if yadvance + cy + cTrunc bc.yoff < 0 ∨
        yadvance + cy + cTrunc bc.yoff ≥ height ∨
        yadvance + cy + cTrunc bc.yoff < rect.offsetY ∨
        yadvance + cy + cTrunc bc.yoff ≥ rect.offsetY + rect.extentH then
      []
    else
      (List.range ((bc.x1 : Int) - (bc.x0 : Int)).toNat).filterMap fun (cx : Nat) =>
        if cLround (bc.xoff + xadvance) + cx < 0 ∨
            cLround (bc.xoff + xadvance) + cx ≥ width ∨
            cLround (bc.xoff + xadvance) + cx < rect.offsetX ∨
            cLround (bc.xoff + xadvance) + cx ≥ rect.offsetX + rect.extentW then
          none
        else
          some (cLround (bc.xoff + xadvance) + cx,
                yadvance + cy + cTrunc bc.yoff,
                font.glyphBitmap
                  (((cy : Int) + bc.y0) * font.bitmapWidth + cx + bc.x0))

/-- Apply the glyph writes of one character in order: each write blends the
coverage into the destination pixel at flat index `destY * width + destX`. -/
def applyGlyphWrites (color : XrColor4f) (width : Int)
    (writes : List (Int × Int × Nat)) (buf : Int → RGBA8Color) :
    Int → RGBA8Color :=
  writes.foldl
    (fun b wr =>
      Function.update b (wr.2.1 * width + wr.1)
        (blendPixel wr.2.2 color (b (wr.2.1 * width + wr.1))))
    buf

/-- The running state of `PutText`: the float x-cursor, the integer
baseline y, the pixel buffer, the diagnostic-warning count and the log of
all glyph-pixel writes so far. -/
structure PutTextState where
  xadvance : ℚ
  yadvance : Int
  buf : Int → RGBA8Color
  warnings : Nat
  writes : List (Int × Int × Nat)

/-- The cursor/warning bookkeeping run before a glyph is placed: the
word-wrap lookahead block, then the per-character wrap check
(`PutText` lines 203-241).  Returns the new `(xadvance, yadvance,
warnings)`.  When wrap is disabled, each suppressed wrap emits one console
warning. -/
def wrapCursor (font : BakedFont) (rect : XrRect2Di) (pixelHeight : Int)
    (wordWrap : Bool) (c : Char) (rest : List Char)
    (xadvance : ℚ) (yadvance : Int) (warnings : Nat) : ℚ × Int × Nat :=
  let rww := remainingWordWidth font (c :: rest)
  let afterWord :=
    if xadvance + rww > ((rect.offsetX + rect.extentW : Int) : ℚ) then
      if rww ≤ ((rect.extentW - rect.offsetX : Int) : ℚ) then
        if wordWrap then ((rect.offsetX : ℚ), yadvance + pixelHeight, warnings)
        else (xadvance, yadvance, warnings + 1)
      else (xadvance, yadvance, warnings)
    else (xadvance, yadvance, warnings)
  let characterWidth : Int :=
    ((GetBakedChar font c).x1 : Int) - ((GetBakedChar font c).x0 : Int)
  if afterWord.1 + (characterWidth : ℚ) >
      ((rect.offsetX + rect.extentW : Int) : ℚ) then
    if wordWrap then ((rect.offsetX : ℚ), afterWord.2.1 + pixelHeight, afterWord.2.2)
    else (afterWord.1, afterWord.2.1, afterWord.2.2 + 1)
  else afterWord

/-- One iteration of `PutText`'s character loop: newline handling, the wrap
bookkeeping, the glyph copy, and the cursor advance. -/
def putTextChar (font : BakedFont) (rect : XrRect2Di)
    (width height pixelHeight : Int) (color : XrColor4f) (wordWrap : Bool)
    (c : Char) (rest : List Char) (st : PutTextState) : PutTextState :=
  if c = '\n' then
    { st with xadvance := (rect.offsetX : ℚ), yadvance := st.yadvance + pixelHeight }
  else
    let cur := wrapCursor font rect pixelHeight wordWrap c rest
      st.xadvance st.yadvance st.warnings
    let bakedChar := GetBakedChar font c
    let ws := glyphWrites font bakedChar rect width height cur.1 cur.2.1
    { xadvance := cur.1 + bakedChar.xadvance,
      yadvance := cur.2.1,
      buf := applyGlyphWrites color width ws st.buf,
      warnings := cur.2.2,
      writes := st.writes ++ ws }

/-- `PutText`'s character loop. -/
def putTextLoop (font : BakedFont) (rect : XrRect2Di)
    (width height pixelHeight : Int) (color : XrColor4f) (wordWrap : Bool) :
    List Char → PutTextState → PutTextState
  | [], st => st
  | c :: rest, st =>
    putTextLoop font rect width height pixelHeight color wordWrap rest
      (putTextChar font rect width height pixelHeight color wordWrap c rest st)

/-- `RGBAImage::PutText`: the cursor starts at `rect.offset.x`,
`rect.offset.y + (int)(pixelHeight * 0.8f)` (`0.8f` is the binary float
nearest 0.8, `13421773 / 2^24`), then the character loop runs.  The baked
font is a parameter (in the code it comes from `BakedFont::GetOrCreate`,
which bakes an external font file through the external stb library). -/
def RGBAImage.PutText (img : RGBAImage) (font : BakedFont) (rect : XrRect2Di)
    (text : List Char) (pixelHeight : Int) (color : XrColor4f)
    (wordWrap : Bool) : PutTextState :=
  putTextLoop font rect img.width img.height pixelHeight color wordWrap text
    { xadvance := (rect.offsetX : ℚ),
      yadvance := rect.offsetY + cTrunc ((pixelHeight : ℚ) * (13421773 / 16777216)),
      buf := img.buf,
      warnings := 0,
      writes := [] }

/-- A logged glyph write is inside the canvas and the caller's rectangle. -/
def writeInBounds (rect : XrRect2Di) (width height : Int)
    (wr : Int × Int × Nat) : Prop :=
  0 ≤ wr.1 ∧ wr.1 < width ∧ 0 ≤ wr.2.1 ∧ wr.2.1 < height ∧
  rect.offsetX ≤ wr.1 ∧ wr.1 < rect.offsetX + rect.extentW ∧
  rect.offsetY ≤ wr.2.1 ∧ wr.2.1 < rect.offsetY + rect.extentH

/-- A 100×100 test canvas, all pixels opaque black. -/
def testImg100 : RGBAImage :=
  ⟨100, 100, false, fun _ => ⟨0, 0, 0, 255⟩⟩

/-- A concrete baked font for evaluation: every glyph is the 2×2 atlas
block at the origin with zero offsets; all advances are 10 except character
`d` (baked index 68), whose advance is 2; atlas coverage is 100
everywhere. -/
def testFont : BakedFont :=
  { bitmapWidth := 16,
    glyphBitmap := fun _ => 100,
    bakedChars := fun i =>
      if i = 68 then ⟨0, 0, 2, 2, 0, 0, 2⟩ else ⟨0, 0, 2, 2, 0, 0, 10⟩ }

theorem writeAll_apply (c : RGBA8Color) (l : List Int) (buf : Int → RGBA8Color)
    (i : Int) : writeAll buf c l i = if i ∈ l then c else buf i := by
  induction l generalizing buf with
  | nil => simp [writeAll]
  | cons a l ih =>
    simp only [writeAll, List.foldl_cons] at *
    rw [ih]
    by_cases hil : i ∈ l
    · simp [hil, List.mem_cons]
    · by_cases hia : i = a
      · simp [hil, hia, Function.update]
      · simp [hil, hia, Function.update]

/-- Uniqueness of the row-major decomposition of a flat index. -/
theorem flat_index_inj {W a b c d : Int} (hb0 : 0 ≤ b) (hbW : b < W)
    (hd0 : 0 ≤ d) (hdW : d < W) (h : a * W + b = c * W + d) : a = c ∧ b = d := by
  have hac : a = c := by
    rcases lt_trichotomy a c with hlt | heq | hgt
    · exfalso
      have h1 : (1 : Int) ≤ c - a := by omega
      have h2 : 1 * W ≤ (c - a) * W := by
        apply mul_le_mul_of_nonneg_right h1 (by omega)
      have h3 : (c - a) * W = b - d := by ring_nf; linarith [h]
      omega
    · exact heq
    · exfalso
      have h1 : (1 : Int) ≤ a - c := by omega
      have h2 : 1 * W ≤ (a - c) * W := by
        apply mul_le_mul_of_nonneg_right h1 (by omega)
      have h3 : (a - c) * W = d - b := by ring_nf; linarith [h]
      omega
  subst hac
  exact ⟨rfl, by linarith [h]⟩

theorem mem_rectWrites {W x y w h i : Int} :
    i ∈ rectWrites W x y w h ↔
      ∃ row : Nat, (row : Int) < h ∧ ∃ col : Nat, (col : Int) < w ∧
        i = ((row : Int) + y) * W + x + col := by
  constructor
  · intro hi
    rw [rectWrites, List.mem_flatMap] at hi
    obtain ⟨row, hrow, hi⟩ := hi
    rw [List.mem_map] at hi
    obtain ⟨col, hcol, heq⟩ := hi
    rw [List.mem_range] at hrow
    rw [List.mem_range] at hcol
    exact ⟨row, by omega, col, by omega, heq.symm⟩
  · rintro ⟨row, hrow, col, hcol, rfl⟩
    rw [rectWrites, List.mem_flatMap]
    refine ⟨row, by rw [List.mem_range]; omega, ?_⟩
    rw [List.mem_map]
    exact ⟨col, by rw [List.mem_range]; omega, rfl⟩

/-- Membership in `rectWrites` for a flat index presented as `py * W + px`
with `px` a valid column: exactly the pixels of the rectangle. -/
theorem rectWrites_flat_mem {W x y w h px py : Int}
    (hx0 : 0 ≤ x) (hxw : x + w ≤ W)
    (hpx0 : 0 ≤ px) (hpxW : px < W) :
    py * W + px ∈ rectWrites W x y w h ↔
      (x ≤ px ∧ px < x + w ∧ y ≤ py ∧ py < y + h) := by
  rw [mem_rectWrites]
  constructor
  · rintro ⟨row, hrow, col, hcol, heq⟩
    have heq2 : py * W + px = ((row : Int) + y) * W + (x + col) := by linarith [heq]
    have hcb : 0 ≤ x + (col : Int) := by positivity
    have hcb2 : x + (col : Int) < W := by omega
    obtain ⟨h1, h2⟩ := flat_index_inj hpx0 hpxW hcb hcb2 heq2
    omega
  · rintro ⟨h1, h2, h3, h4⟩
    refine ⟨(py - y).toNat, by omega, (px - x).toNat, by omega, ?_⟩
    have e1 : ((py - y).toNat : Int) = py - y := by omega
    have e2 : ((px - x).toNat : Int) = px - x := by omega
    rw [e1, e2]; ring

theorem rectWrites_nodup {W x y w h : Int} (hx0 : 0 ≤ x) (hxw : x + w ≤ W) :
    (rectWrites W x y w h).Nodup := by
  rw [rectWrites, List.nodup_flatMap]
  constructor
  · intro row _
    refine List.Nodup.map ?_ (List.nodup_range _)
    intro c1 c2 hc
    have hc2 : ((c1 : Int)) = c2 := add_left_cancel hc
    omega
  · refine (List.pairwise_lt_range _).imp fun {a b} hab => ?_
    simp only [Function.onFun]
    intro i hia hib
    rw [List.mem_map] at hia hib
    obtain ⟨c1, hc1, he1⟩ := hia
    obtain ⟨c2, hc2, he2⟩ := hib
    rw [List.mem_range] at hc1 hc2
    have heq : ((a : Int) + y) * W + (x + c1) = ((b : Int) + y) * W + (x + c2) := by
      rw [← add_assoc, ← add_assoc, he1, he2]
    have hb1 : (0 : Int) ≤ x + c1 := by positivity
    have hb2 : x + (c1 : Int) < W := by omega
    have hb3 : (0 : Int) ≤ x + c2 := by positivity
    have hb4 : x + (c2 : Int) < W := by omega
    obtain ⟨h1, _⟩ := flat_index_inj hb1 hb2 hb3 hb4 heq
    omega

/-- When `2 * thickness ≥ h`, every row of `DrawRectBorder` takes the
full-width branch, so the border write list coincides with `DrawRect`'s. -/
theorem borderWrites_eq_rectWrites {W x y w h t : Int} (h2t : 2 * t ≥ h) :
    borderWrites W x y w h t = rectWrites W x y w h := by
  rw [borderWrites, rectWrites]
  congr 1
  funext row
  rw [borderRowWrites, if_pos (by omega)]

/-- The border row geometry: `min`/`max` clamping reduced to plain
inequalities.  For a column `0 ≤ col < w`, landing in the left segment
`[0, min t w)` is `col < t`, and landing in the right segment
`[max (w - t) 0, w)` is `col ≥ w - t`. -/
theorem mem_borderRowWrites {W x y w h t : Int} {row : Nat} {i : Int} :
    i ∈ borderRowWrites W x y w h t row ↔
      ∃ col : Nat, (col : Int) < w ∧ i = ((row : Int) + y) * W + x + col ∧
        ((row : Int) < t ∨ (row : Int) ≥ h - t ∨ (col : Int) < t ∨
          (col : Int) ≥ w - t) := by
  rw [borderRowWrites]
  by_cases hc : (row : Int) < t ∨ (row : Int) ≥ h - t
  · rw [if_pos hc]
    simp only [List.mem_map, List.mem_range]
    constructor
    · rintro ⟨col, hcol, rfl⟩
      exact ⟨col, by omega, rfl, by tauto⟩
    · rintro ⟨col, hcol, rfl, _⟩
      exact ⟨col, by omega, rfl⟩
  · rw [if_neg hc]
    simp only [List.mem_append, List.mem_map, List.mem_range]
    rcases le_total t w with htw | htw
    · rw [min_eq_left htw, max_eq_left (by omega : (0 : Int) ≤ w - t)]
      constructor
      · rintro (⟨col, hcol, rfl⟩ | ⟨col, hcol, rfl⟩)
        · exact ⟨col, by omega, rfl, by omega⟩
        · refine ⟨(w - t).toNat + col, by omega, ?_, by omega⟩
          have hcast : (((w - t).toNat + col : Nat) : Int) = (w - t) + col := by
            omega
          rw [hcast]
          ring
      · rintro ⟨col, hcol, rfl, hdisj⟩
        rcases (by omega : (col : Int) < t ∨ (col : Int) ≥ w - t) with hl | hr
        · exact Or.inl ⟨col, by omega, rfl⟩
        · refine Or.inr ⟨col - (w - t).toNat, by omega, ?_⟩
          have hcast : (((col - (w - t).toNat : Nat)) : Int) = (col : Int) - (w - t) := by
            omega
          rw [hcast]
          ring
    · rw [min_eq_right htw, max_eq_right (by omega : w - t ≤ (0 : Int))]
      constructor
      · rintro (⟨col, hcol, rfl⟩ | ⟨col, hcol, rfl⟩)
        · exact ⟨col, by omega, rfl, by omega⟩
        · refine ⟨col, by omega, ?_, by omega⟩
          ring
      · rintro ⟨col, hcol, rfl, hdisj⟩
        refine Or.inr ⟨col, by omega, ?_⟩
        ring

/-- For a column inside `[0, w)`, the clamped segment bounds `min t w` and
`max (w - t) 0` agree with the unclamped ones. -/
theorem minmax_col_iff {t w n : Int} (h0 : 0 ≤ n) (hw : n < w) :
    (n < min t w ↔ n < t) ∧ (max (w - t) 0 ≤ n ↔ w - t ≤ n) := by
  rcases le_total t w with htw | htw
  · rw [min_eq_left htw, max_eq_left (by omega : (0 : Int) ≤ w - t)]
    exact ⟨Iff.rfl, Iff.rfl⟩
  · rw [min_eq_right htw, max_eq_right (by omega : w - t ≤ (0 : Int))]
    constructor
    · constructor <;> intro <;> omega
    · constructor <;> intro <;> omega

/-- Membership in `borderWrites` for a flat index presented as `py * W + px`
with `px` a valid column: the per-row border characterization. -/
theorem borderWrites_flat_mem {W x y w h t px py : Int}
    (hx0 : 0 ≤ x) (hxw : x + w ≤ W) (hpx0 : 0 ≤ px) (hpxW : px < W) :
    py * W + px ∈ borderWrites W x y w h t ↔
      (y ≤ py ∧ py < y + h ∧ x ≤ px ∧ px < x + w ∧
        (py - y < t ∨ py - y ≥ h - t ∨ px - x < t ∨
          px - x ≥ w - t)) := by
  rw [borderWrites]
  constructor
  · intro hi
    rw [List.mem_flatMap] at hi
    obtain ⟨row, hrow, hi⟩ := hi
    rw [List.mem_range] at hrow
    rw [mem_borderRowWrites] at hi
    obtain ⟨col, hcol, heq, hdisj⟩ := hi
    have heq2 : py * W + px = ((row : Int) + y) * W + (x + col) := by linarith [heq]
    have hcb : 0 ≤ x + (col : Int) := by positivity
    have hcb2 : x + (col : Int) < W := by omega
    obtain ⟨h1, h2⟩ := flat_index_inj hpx0 hpxW hcb hcb2 heq2
    omega
  · rintro ⟨h1, h2, h3, h4, hdisj⟩
    rw [List.mem_flatMap]
    refine ⟨(py - y).toNat, by rw [List.mem_range]; omega, ?_⟩
    rw [mem_borderRowWrites]
    refine ⟨(px - x).toNat, by omega, ?_, by omega⟩
    have e1 : (((py - y).toNat : Nat) : Int) = py - y := by omega
    have e2 : (((px - x).toNat : Nat) : Int) = px - x := by omega
    rw [e1, e2]
    ring

/-- C2: for every image and every rectangle fully inside the image's bounds,
`DrawRect` succeeds, sets every pixel inside the rectangle to the requested
color converted by truncating `255 * channel` to 8 bits, and leaves every
pixel outside the rectangle unchanged. -/
theorem C2_drawRect_fills_rect_exactly (img : RGBAImage) (x y w h : Int)
    (color : XrColor4f)
    (hx0 : 0 ≤ x) (hy0 : 0 ≤ y) (hw0 : 0 ≤ w) (hh0 : 0 ≤ h)
    (hxw : x + w ≤ img.width) (hyh : y + h ≤ img.height) :
    ∃ img2, img.DrawRect x y w h color = .ok img2 ∧
      ∀ px py : Int, 0 ≤ px → px < img.width → 0 ≤ py → py < img.height →
        img2.pixelAt px py =
          if x ≤ px ∧ px < x + w ∧ y ≤ py ∧ py < y + h then
            AsRGBA color.r color.g color.b color.a
          else img.pixelAt px py := by
  have hguard : ¬(x + w > img.width ∨ y + h > img.height) := by omega
  refine ⟨_, by rw [RGBAImage.DrawRect, if_neg hguard], ?_⟩
  intro px py h1 h2 h3 h4
  show writeAll img.buf _ (rectWrites img.width x y w h) (py * img.width + px) = _
  rw [writeAll_apply]
  by_cases hmem : py * img.width + px ∈ rectWrites img.width x y w h
  · rw [if_pos hmem, if_pos ((rectWrites_flat_mem hx0 hxw h1 h2).mp hmem)]
  · rw [if_neg hmem,
      if_neg (fun hcon => hmem ((rectWrites_flat_mem hx0 hxw h1 h2).mpr hcon))]
    rfl

/-- Witness for C2 at a concrete input: a 2×2 rectangle at offset (1,1)
inside the 4×4 test image. -/
theorem C2_drawRect_fills_rect_exactly_witness :
    ∃ img2, testImg4.DrawRect 1 1 2 2 ⟨1, 0, 0, 1⟩ = .ok img2 ∧
      ∀ px py : Int, 0 ≤ px → px < testImg4.width → 0 ≤ py → py < testImg4.height →
        img2.pixelAt px py =
          if 1 ≤ px ∧ px < 1 + 2 ∧ 1 ≤ py ∧ py < 1 + 2 then
            AsRGBA (1 : ℚ) 0 0 1
          else testImg4.pixelAt px py :=
  C2_drawRect_fills_rect_exactly testImg4 1 1 2 2 ⟨1, 0, 0, 1⟩
    (by decide) (by decide) (by decide) (by decide) (by decide) (by decide)

/-- C3: the claim requires `DrawRect` to reject any rectangle not contained
in `[0,width) × [0,height)`, including negative offsets, and never to write
outside the image. But `DrawRect(-1, 0, 1, 1)` on the 4×4 test image passes
the guard (only `x + w > width` and `y + h > height` are checked), and its
single write lands at flat index `-1`, outside the valid range `[0, 16)`:
an out-of-image write. `DrawRectBorder` on the same input does reject. -/
theorem C3_drawRect_negative_offset_eval :
    exceptIsOk (testImg4.DrawRect (-1) 0 1 1 ⟨1, 0, 0, 1⟩) = true ∧
    rectWrites testImg4.width (-1) 0 1 1 = [-1] ∧
    (testImg4.DrawRect (-1) 0 1 1 ⟨1, 0, 0, 1⟩).toOption.map
      (fun im => im.buf (-1)) = some ⟨255, 0, 0, 255⟩ ∧
    testImg4.buf (-1) = ⟨1, 2, 3, 4⟩ ∧
    exceptIsOk (testImg4.DrawRectBorder (-1) 0 1 1 1 ⟨1, 0, 0, 1⟩) = false := by
  refine ⟨by decide, by decide, ?_, by decide, by decide⟩
  have h1 : testImg4.DrawRect (-1) 0 1 1 ⟨1, 0, 0, 1⟩ =
      .ok { testImg4 with
            buf := writeAll testImg4.buf (AsRGBA 1 0 0 1)
                     (rectWrites testImg4.width (-1) 0 1 1) } := by
    rw [RGBAImage.DrawRect, if_neg (by decide)]
  rw [h1]
  show some (writeAll testImg4.buf (AsRGBA 1 0 0 1)
      (rectWrites testImg4.width (-1) 0 1 1) (-1)) = _
  rw [writeAll_apply, if_pos (by decide)]
  norm_num [AsRGBA, truncU8, cTrunc]
  decide

/-- C7: for every in-bounds rectangle and thickness `t` with
`t ≥ max(w,h)/2` (i.e. `2*t ≥ max w h`), `DrawRectBorder` writes every pixel
of the rectangle exactly once with the border color, performs no
out-of-range writes (every written index is a pixel of the rectangle), and
leaves pixels outside the rectangle unchanged; for arbitrary `t` the filled
positions are: full width in the top and bottom `t` rows, and the clamped
left segment `[0, min t w)` / right segment `[max (w-t) 0, w)` elsewhere. -/
theorem C7_drawRectBorder_thick_degrades_to_fill (img : RGBAImage)
    (x y w h : Int) (color : XrColor4f)
    (hx0 : 0 ≤ x) (hy0 : 0 ≤ y) (hw0 : 0 ≤ w) (hh0 : 0 ≤ h)
    (hxw : x + w ≤ img.width) (hyh : y + h ≤ img.height) :
    (∀ t : Int, 2 * t ≥ max w h →
      ∃ img2, img.DrawRectBorder x y w h t color = .ok img2 ∧
        (∀ px py : Int, x ≤ px → px < x + w → y ≤ py → py < y + h →
          (borderWrites img.width x y w h t).count (py * img.width + px) = 1 ∧
          img2.pixelAt px py = AsRGBA color.r color.g color.b color.a) ∧
        (∀ i, i ∈ borderWrites img.width x y w h t →
          ∃ px py : Int, x ≤ px ∧ px < x + w ∧ y ≤ py ∧ py < y + h ∧
            i = py * img.width + px) ∧
        (∀ px py : Int, 0 ≤ px → px < img.width → 0 ≤ py → py < img.height →
          ¬(x ≤ px ∧ px < x + w ∧ y ≤ py ∧ py < y + h) →
          img2.pixelAt px py = img.pixelAt px py)) ∧
    (∀ t : Int, ∃ img2, img.DrawRectBorder x y w h t color = .ok img2 ∧
      ∀ px py : Int, 0 ≤ px → px < img.width → 0 ≤ py → py < img.height →
        img2.pixelAt px py =
          if y ≤ py ∧ py < y + h ∧ x ≤ px ∧ px < x + w ∧
              (py - y < t ∨ py - y ≥ h - t ∨ px - x < min t w ∨
                max (w - t) 0 ≤ px - x)
          then AsRGBA color.r color.g color.b color.a
          else img.pixelAt px py) := by
  have hguard :
      ¬(x < 0 ∨ y < 0 ∨ w < 0 ∨ h < 0 ∨ x + w > img.width ∨ y + h > img.height) := by
    omega
  constructor
  · intro t ht
    have hth : 2 * t ≥ h := le_trans (le_max_right w h) ht
    have heq : borderWrites img.width x y w h t = rectWrites img.width x y w h :=
      borderWrites_eq_rectWrites hth
    refine ⟨_, by rw [RGBAImage.DrawRectBorder, if_neg hguard], ?_, ?_, ?_⟩
    · intro px py h1 h2 h3 h4
      have hpx0 : 0 ≤ px := by omega
      have hpxW : px < img.width := by omega
      have hmem : py * img.width + px ∈ rectWrites img.width x y w h := by
        rw [rectWrites_flat_mem hx0 hxw hpx0 hpxW]
        omega
      constructor
      · rw [heq]
        exact List.count_eq_one_of_mem (rectWrites_nodup hx0 hxw) hmem
      · show writeAll img.buf _ (borderWrites img.width x y w h t)
          (py * img.width + px) = _
        rw [writeAll_apply, if_pos (heq ▸ hmem)]
    · intro i hi
      rw [heq, mem_rectWrites] at hi
      obtain ⟨row, hrow, col, hcol, rfl⟩ := hi
      exact ⟨x + col, (row : Int) + y, by omega, by omega, by omega, by omega,
        by ring⟩
    · intro px py h1 h2 h3 h4 hout
      show writeAll img.buf _ (borderWrites img.width x y w h t)
        (py * img.width + px) = _
      rw [writeAll_apply,
        if_neg (fun hmem => hout (by
          rw [heq, rectWrites_flat_mem hx0 hxw h1 h2] at hmem
          omega))]
      rfl
  · intro t
    refine ⟨_, by rw [RGBAImage.DrawRectBorder, if_neg hguard], ?_⟩
    intro px py h1 h2 h3 h4
    show writeAll img.buf _ (borderWrites img.width x y w h t)
      (py * img.width + px) = _
    rw [writeAll_apply]
    by_cases hmem : py * img.width + px ∈ borderWrites img.width x y w h t
    · rw [borderWrites_flat_mem hx0 hxw h1 h2] at hmem
      obtain ⟨ha, hb, hc, hd, hdisj⟩ := hmem
      obtain ⟨hiff1, hiff2⟩ :=
        minmax_col_iff (t := t) (w := w) (n := px - x) (by omega) (by omega)
      rw [if_pos (by
        rw [borderWrites_flat_mem hx0 hxw h1 h2]
        exact ⟨ha, hb, hc, hd, hdisj⟩),
        if_pos (by exact ⟨ha, hb, hc, hd, by tauto⟩)]
    · rw [if_neg hmem,
        if_neg (fun hcon => hmem (by
          rw [borderWrites_flat_mem hx0 hxw h1 h2]
          obtain ⟨ha, hb, hc, hd, hdisj⟩ := hcon
          obtain ⟨hiff1, hiff2⟩ :=
            minmax_col_iff (t := t) (w := w) (n := px - x) (by omega) (by omega)
          exact ⟨ha, hb, hc, hd, by tauto⟩))]
      rfl

/-- Witness for C7 at a concrete input: a 3×3 rectangle at the origin of the
4×4 test image. -/
theorem C7_drawRectBorder_thick_degrades_to_fill_witness :
    (∀ t : Int, 2 * t ≥ max 3 3 →
      ∃ img2, testImg4.DrawRectBorder 0 0 3 3 t ⟨0, 1, 0, 1⟩ = .ok img2 ∧
        (∀ px py : Int, 0 ≤ px → px < 0 + 3 → 0 ≤ py → py < 0 + 3 →
          (borderWrites testImg4.width 0 0 3 3 t).count (py * testImg4.width + px) = 1 ∧
          img2.pixelAt px py = AsRGBA (0 : ℚ) 1 0 1) ∧
        (∀ i, i ∈ borderWrites testImg4.width 0 0 3 3 t →
          ∃ px py : Int, 0 ≤ px ∧ px < 0 + 3 ∧ 0 ≤ py ∧ py < 0 + 3 ∧
            i = py * testImg4.width + px) ∧
        (∀ px py : Int, 0 ≤ px → px < testImg4.width → 0 ≤ py → py < testImg4.height →
          ¬(0 ≤ px ∧ px < 0 + 3 ∧ 0 ≤ py ∧ py < 0 + 3) →
          img2.pixelAt px py = testImg4.pixelAt px py)) ∧
    (∀ t : Int, ∃ img2, testImg4.DrawRectBorder 0 0 3 3 t ⟨0, 1, 0, 1⟩ = .ok img2 ∧
      ∀ px py : Int, 0 ≤ px → px < testImg4.width → 0 ≤ py → py < testImg4.height →
        img2.pixelAt px py =
          if 0 ≤ py ∧ py < 0 + 3 ∧ 0 ≤ px ∧ px < 0 + 3 ∧
              (py - 0 < t ∨ py - 0 ≥ 3 - t ∨ px - 0 < min t 3 ∨
                max (3 - t) 0 ≤ px - 0)
          then AsRGBA (0 : ℚ) 1 0 1
          else testImg4.pixelAt px py) :=
  C7_drawRectBorder_thick_degrades_to_fill testImg4 0 0 3 3 ⟨0, 1, 0, 1⟩
    (by decide) (by decide) (by decide) (by decide) (by decide) (by decide)

/-- C1: `AcquireWaitReleaseImage` acquires, waits and releases exactly once
around the writer call; whether the writer succeeds or raises, its result is
propagated unchanged and the swapchain ends with zero outstanding
acquisitions. -/
theorem C1_acquireWaitRelease_always_releases {ε : Type}
    (sc : ModelSwapchain) (writer : Nat → Except ε Unit)
    (h0 : sc.outstanding = 0) :
    (AcquireWaitReleaseImage sc writer).2.1.outstanding = 0 ∧
    (AcquireWaitReleaseImage sc writer).1 = writer sc.nextIndex ∧
    (AcquireWaitReleaseImage sc writer).2.2 =
      [.acquire sc.nextIndex, .wait sc.nextIndex, .release sc.nextIndex] := by
  refine ⟨?_, rfl, rfl⟩
  simp [AcquireWaitReleaseImage, h0]

/-- Witness for C1: a writer that raises still leaves zero outstanding
acquisitions, and its error is propagated. -/
theorem C1_acquireWaitRelease_always_releases_witness :
    (⟨0, 5⟩ : ModelSwapchain).outstanding = 0 ∧
    ((AcquireWaitReleaseImage (⟨0, 5⟩ : ModelSwapchain)
        (fun _ => Except.error "writer failure")).2.1.outstanding = 0 ∧
      (AcquireWaitReleaseImage (⟨0, 5⟩ : ModelSwapchain)
        (fun _ => Except.error "writer failure")).1 =
        (fun _ => Except.error "writer failure") (5 : Nat) ∧
      (AcquireWaitReleaseImage (⟨0, 5⟩ : ModelSwapchain)
        (fun _ => Except.error "writer failure")).2.2 =
        [.acquire 5, .wait 5, .release 5]) :=
  ⟨rfl, C1_acquireWaitRelease_always_releases ⟨0, 5⟩
    (fun _ => Except.error "writer failure") rfl⟩

/-- C8 evaluation: two successive `GetOrCreate` calls for the same pixel
height construct two distinct `BakedFont` objects and return different
objects, because the cache map is a fresh local on every call — the claimed
build-once process-wide cache does not exist in the code. -/
theorem C8_getOrCreate_rebuilds_every_call :
    (GetOrCreate 12 ⟨0, []⟩).1 ≠
      (GetOrCreate 12 (GetOrCreate 12 ⟨0, []⟩).2).1 ∧
    (GetOrCreate 12 (GetOrCreate 12 ⟨0, []⟩).2).2.constructed = 2 := by
  decide

/-- C10: calling `Load` before `Init` raises the logic error (before
touching the cache), a valid cache never raises it, and after `Init` the
cache is valid, so `Load` after `Init` never raises it. -/
theorem C10_load_before_init_is_logic_error (st : RGBAImageCache)
    (path : String) (decoded : Option Nat) :
    (st.IsValid = false → st.Load path decoded = .error .notInitialized) ∧
    (st.IsValid = true → st.Load path decoded ≠ .error .notInitialized) ∧
    st.Init.IsValid = true ∧
    st.Init.Load path decoded ≠ .error .notInitialized := by
  have hvalid : ∀ st2 : RGBAImageCache, st2.IsValid = true →
      st2.Load path decoded ≠ .error .notInitialized := by
    intro st2 hv
    unfold RGBAImageCache.Load
    rw [hv]
    rcases hl : st2.imageCache.lookup path with _ | image
    · rcases decoded with _ | image2 <;> simp [hl]
    · simp [hl]
  have hinit : ∀ st2 : RGBAImageCache, st2.Init.IsValid = true := by
    intro st2
    rcases st2 with ⟨mutex, cache⟩
    rcases mutex
    · rfl
    · rfl
  refine ⟨fun hv => ?_, hvalid st, hinit st, hvalid st.Init (hinit st)⟩
  unfold RGBAImageCache.Load
  rw [hv]
  rfl

/-- Witness for C10: loading from an uninitialized cache errors, loading
from an initialized one does not raise the initialization error. -/
theorem C10_load_before_init_is_logic_error_witness :
    (RGBAImageCache.Load ⟨false, []⟩ "ref.png" (some 7) =
      .error .notInitialized) ∧
    (RGBAImageCache.Load ⟨true, []⟩ "ref.png" (some 7) ≠
      .error .notInitialized) :=
  ⟨(C10_load_before_init_is_logic_error ⟨false, []⟩ "ref.png" (some 7)).1 rfl,
   (C10_load_before_init_is_logic_error ⟨true, []⟩ "ref.png" (some 7)).2.1 rfl⟩

/-- One `LoadStep` preserves the finished-calls-match-cache invariant. -/
theorem loadStep_preserves_finished_cache {s s2 : LoadSystem}
    (hstep : LoadStep s s2)
    (ih : ∀ (i r : Nat), s.threads[i]? = some (LoadThread.finished r) → s.cacheEntry = some r) :
    ∀ (i r : Nat), s2.threads[i]? = some (LoadThread.finished r) → s2.cacheEntry = some r := by
  cases hstep with
  | hit j v hth hc =>
    intro i r hget
    simp only [List.getElem?_set] at hget
    by_cases hij : j = i
    · rw [if_pos hij] at hget
      by_cases hlen : j < s.threads.length
      · rw [if_pos hlen] at hget
        cases Option.some.inj hget
        exact hc
      · rw [if_neg hlen] at hget
        cases hget
    · rw [if_neg hij] at hget
      exact ih i r hget
  | miss j hth hc =>
    intro i r hget
    simp only [List.getElem?_set] at hget
    by_cases hij : j = i
    · rw [if_pos hij] at hget
      by_cases hlen : j < s.threads.length
      · rw [if_pos hlen] at hget
        exact absurd (Option.some.inj hget) (by intro hcon; cases hcon)
      · rw [if_neg hlen] at hget
        cases hget
    · rw [if_neg hij] at hget
      exact ih i r hget
  | decode j hth =>
    intro i r hget
    simp only [List.getElem?_set] at hget
    by_cases hij : j = i
    · rw [if_pos hij] at hget
      by_cases hlen : j < s.threads.length
      · rw [if_pos hlen] at hget
        exact absurd (Option.some.inj hget) (by intro hcon; cases hcon)
      · rw [if_neg hlen] at hget
        cases hget
    · rw [if_neg hij] at hget
      exact ih i r hget
  | insert j img hth =>
    intro i r hget
    simp only [List.getElem?_set] at hget
    by_cases hij : j = i
    · rw [if_pos hij] at hget
      by_cases hlen : j < s.threads.length
      · rw [if_pos hlen] at hget
        cases Option.some.inj hget
        rfl
      · rw [if_neg hlen] at hget
        cases hget
    · rw [if_neg hij] at hget
      have hih := ih i r hget
      rcases hc : s.cacheEntry with _ | v
      · rw [hc] at hih
        cases hih
      · rw [hc] at hih
        simpa using hih

/-- Key invariant: every completed `Load` call returned exactly the image
currently published in the cache (which never changes once set). -/
theorem loadReachable_finished_cache {n : Nat} {s : LoadSystem}
    (hreach : LoadReachable n s) :
    ∀ (i r : Nat), s.threads[i]? = some (LoadThread.finished r) → s.cacheEntry = some r := by
  unfold LoadReachable at hreach
  induction hreach with
  | refl =>
    intro i r hget
    simp only [initLoadSystem, List.getElem?_replicate] at hget
    by_cases hi : i < n
    · rw [if_pos hi] at hget
      exact absurd (Option.some.inj hget) (by intro hcon; cases hcon)
    · rw [if_neg hi] at hget
      cases hget
  | tail hsteps hstep ih =>
    exact loadStep_preserves_finished_cache hstep ih

/-- A concrete interleaving of two concurrent `Load` calls on the same
path in which both threads miss, both decode (two decodes!), and the first
insertion wins: both calls return image `0`, and thread 1's decoded image
`1` is discarded. -/
theorem loadRun_two_decodes :
    LoadReachable 2 ⟨some 0, 2, 2, [.finished 0, .finished 0]⟩ := by
  have h1 : LoadStep (initLoadSystem 2) ⟨none, 0, 0, [.missed, .start]⟩ :=
    LoadStep.miss (initLoadSystem 2) 0 rfl rfl
  have h2 : LoadStep ⟨none, 0, 0, [.missed, .start]⟩
      ⟨none, 0, 0, [.missed, .missed]⟩ :=
    LoadStep.miss _ 1 rfl rfl
  have h3 : LoadStep ⟨none, 0, 0, [.missed, .missed]⟩
      ⟨none, 1, 1, [.decoded 0, .missed]⟩ :=
    LoadStep.decode _ 0 rfl
  have h4 : LoadStep ⟨none, 1, 1, [.decoded 0, .missed]⟩
      ⟨none, 2, 2, [.decoded 0, .decoded 1]⟩ :=
    LoadStep.decode _ 1 rfl
  have h5 : LoadStep ⟨none, 2, 2, [.decoded 0, .decoded 1]⟩
      ⟨some 0, 2, 2, [.finished 0, .decoded 1]⟩ :=
    LoadStep.insert _ 0 0 rfl
  have h6 : LoadStep ⟨some 0, 2, 2, [.finished 0, .decoded 1]⟩
      ⟨some 0, 2, 2, [.finished 0, .finished 0]⟩ :=
    LoadStep.insert _ 1 1 rfl
  exact Relation.ReflTransGen.tail
    (Relation.ReflTransGen.tail
      (Relation.ReflTransGen.tail
        (Relation.ReflTransGen.tail
          (Relation.ReflTransGen.tail
            (Relation.ReflTransGen.tail Relation.ReflTransGen.refl h1)
            h2) h3) h4) h5) h6

/-- C9 counterexample: it is not true that `N` concurrent `Load` calls on
one path perform at most one load-and-decode — in the interleaving where
both threads pass the locked lookup before either decodes, two decodes are
performed even though both calls complete. -/
theorem C9_at_most_one_decode_false :
    ¬(∀ s : LoadSystem, LoadReachable 2 s → allFinished s = true →
        s.decodes ≤ 1) := by
  intro hclaim
  have h2 := hclaim ⟨some 0, 2, 2, [.finished 0, .finished 0]⟩
    loadRun_two_decodes (by decide)
  have h3 : (⟨some 0, 2, 2, [.finished 0, .finished 0]⟩ : LoadSystem).decodes = 2 :=
    rfl
  omega

/-- C9, amended: all concurrent `Load` calls on the same path that complete
return the same shared image object — the one published in the cache by the
first insertion — though the decode work itself may run more than once, the
losers' results being discarded. -/
theorem C9_all_calls_return_same_image (n : Nat) (s : LoadSystem)
    (hreach : LoadReachable n s) (i j ri rj : Nat)
    (hi : s.threads[i]? = some (LoadThread.finished ri))
    (hj : s.threads[j]? = some (LoadThread.finished rj)) :
    ri = rj ∧ s.cacheEntry = some ri := by
  have h1 := loadReachable_finished_cache hreach i ri hi
  have h2 := loadReachable_finished_cache hreach j rj hj
  rw [h1] at h2
  exact ⟨Option.some.inj h2, h1⟩

/-- Witness for the amended C9 at the concrete two-thread run: both calls
returned image `0`, the cached object. -/
theorem C9_all_calls_return_same_image_witness :
    (0 : Nat) = 0 ∧
    (⟨some 0, 2, 2, [.finished 0, .finished 0]⟩ : LoadSystem).cacheEntry =
      some 0 :=
  C9_all_calls_return_same_image 2 ⟨some 0, 2, 2, [.finished 0, .finished 0]⟩
    loadRun_two_decodes 0 1 0 0 rfl rfl

/-- Every write produced by one glyph copy passes the destination bounds
checks: rows and pixels that fail them produce no write at all. -/
theorem mem_glyphWrites_bounds {font : BakedFont} {bc : BakedChar}
    {rect : XrRect2Di} {width height : Int} {xadv : ℚ} {yadv : Int}
    {wr : Int × Int × Nat}
    (hmem : wr ∈ glyphWrites font bc rect width height xadv yadv) :
    writeInBounds rect width height wr := by
  rw [glyphWrites, List.mem_flatMap] at hmem
  obtain ⟨cy, hcy, hmem⟩ := hmem
  by_cases hY : yadv + cy + cTrunc bc.yoff < 0 ∨
      yadv + cy + cTrunc bc.yoff ≥ height ∨
      yadv + cy + cTrunc bc.yoff < rect.offsetY ∨
      yadv + cy + cTrunc bc.yoff ≥ rect.offsetY + rect.extentH
  · rw [if_pos hY] at hmem
    cases hmem
  · rw [if_neg hY] at hmem
    rw [List.mem_filterMap] at hmem
    obtain ⟨cx, hcx, hsome⟩ := hmem
    by_cases hX : cLround (bc.xoff + xadv) + cx < 0 ∨
        cLround (bc.xoff + xadv) + cx ≥ width ∨
        cLround (bc.xoff + xadv) + cx < rect.offsetX ∨
        cLround (bc.xoff + xadv) + cx ≥ rect.offsetX + rect.extentW
    · rw [if_pos hX] at hsome
      cases hsome
    · rw [if_neg hX] at hsome
      have heq := Option.some.inj hsome
      push_neg at hX hY
      rw [writeInBounds, ← heq]
      dsimp only
      refine ⟨by omega, by omega, by omega, by omega, by omega, by omega,
        by omega, by omega⟩

/-- The character loop only appends in-bounds writes to the log. -/
theorem putTextLoop_writes_bounds (font : BakedFont) (rect : XrRect2Di)
    (width height pixelHeight : Int) (color : XrColor4f) (wordWrap : Bool) :
    ∀ (text : List Char) (st : PutTextState),
      (∀ wr ∈ st.writes, writeInBounds rect width height wr) →
      ∀ wr ∈ (putTextLoop font rect width height pixelHeight color wordWrap
        text st).writes, writeInBounds rect width height wr := by
  intro text
  induction text with
  | nil =>
    intro st h
    exact h
  | cons c rest ih =>
    intro st h
    rw [putTextLoop]
    refine ih _ ?_
    intro wr hwr
    rw [putTextChar] at hwr
    by_cases hnl : c = '\n'
    · rw [if_pos hnl] at hwr
      exact h wr hwr
    · rw [if_neg hnl] at hwr
      simp only [List.mem_append] at hwr
      rcases hwr with hold | hnew
      · exact h wr hold
      · exact mem_glyphWrites_bounds hnew

/-- C5: `PutText` never writes a pixel whose destination coordinates lie
outside the image canvas or outside the caller-specified rectangle — every
glyph pixel in the write log passes both bounds checks (out-of-bounds glyph
pixels are skipped, producing no write and no error, for any word-wrap
mode). -/
theorem C5_putText_never_writes_outside (img : RGBAImage) (font : BakedFont)
    (rect : XrRect2Di) (text : List Char) (pixelHeight : Int)
    (color : XrColor4f) (wordWrap : Bool) (dx dy : Int) (cov : Nat)
    (hmem : (dx, dy, cov) ∈
      (img.PutText font rect text pixelHeight color wordWrap).writes) :
    (0 ≤ dx ∧ dx < img.width ∧ 0 ≤ dy ∧ dy < img.height) ∧
    (rect.offsetX ≤ dx ∧ dx < rect.offsetX + rect.extentW ∧
     rect.offsetY ≤ dy ∧ dy < rect.offsetY + rect.extentH) := by
  have hb := putTextLoop_writes_bounds font rect img.width img.height
    pixelHeight color wordWrap text _
    (by intro wr hwr; cases hwr) (dx, dy, cov) hmem
  rw [writeInBounds] at hb
  exact ⟨⟨hb.1, hb.2.1, hb.2.2.1, hb.2.2.2.1⟩,
    ⟨hb.2.2.2.2.1, hb.2.2.2.2.2.1, hb.2.2.2.2.2.2.1, hb.2.2.2.2.2.2.2⟩⟩

theorem range_two : List.range 2 = [0, 1] := rfl

theorem int_toNat_two : Int.toNat 2 = 2 := rfl

theorem char_c_toNat : ('c').toNat = 99 := rfl

theorem char_d_toNat : ('d').toNat = 100 := rfl

theorem char_c_ne_newline : ('c' = Char.ofNat 10) = False :=
  eq_false (by decide)

theorem char_d_ne_newline : ('d' = Char.ofNat 10) = False :=
  eq_false (by decide)

/-- The one-character run used by the C5 witness, evaluated: a 2×2 glyph
placed at the cursor produces four in-bounds writes. -/
theorem putText_c_writes_eval :
    (testImg100.PutText testFont ⟨0, 0, 24, 100⟩ ['c'] 10 ⟨1, 1, 1, 1⟩
      true).writes = [(0, 8, 100), (1, 8, 100), (0, 9, 100), (1, 9, 100)] := by
  norm_num [RGBAImage.PutText, putTextLoop, putTextChar, wrapCursor,
    remainingWordWidth, wordLen, GetBakedChar, glyphWrites, testFont,
    testImg100, StartChar, EndChar, cLround, cTrunc, range_two,
    int_toNat_two, char_c_toNat, char_c_ne_newline, List.filterMap_cons,
    List.filterMap_nil]

/-- Witness for C5 at a concrete glyph write of the one-character run. -/
theorem C5_putText_never_writes_outside_witness :
    ((0 : Int), (8 : Int), (100 : Nat)) ∈
      (testImg100.PutText testFont ⟨0, 0, 24, 100⟩ ['c'] 10 ⟨1, 1, 1, 1⟩
        true).writes ∧
    (((0 : Int) ≤ 0 ∧ (0 : Int) < testImg100.width ∧ (0 : Int) ≤ 8 ∧
        (8 : Int) < testImg100.height) ∧
      ((0 : Int) ≤ 0 ∧ (0 : Int) < 0 + 24 ∧ (0 : Int) ≤ 8 ∧
        (8 : Int) < 0 + 100)) := by
  have hmem : ((0 : Int), (8 : Int), (100 : Nat)) ∈
      (testImg100.PutText testFont ⟨0, 0, 24, 100⟩ ['c'] 10 ⟨1, 1, 1, 1⟩
        true).writes := by
    rw [putText_c_writes_eval]
    exact List.mem_cons_self _ _
  exact ⟨hmem, C5_putText_never_writes_outside testImg100 testFont
    ⟨0, 0, 24, 100⟩ ['c'] 10 ⟨1, 1, 1, 1⟩ true 0 8 100 hmem⟩

/-- C4 evaluation: at the second character of `"ccd"` (cursor x = 10,
rectangle width 24), the lookahead loop runs over the word `"cd"` but adds
`GetBakedChar(*text).xadvance` — the advance of the current `'c'` (10) —
on every iteration, computing 2·10 = 20 instead of the claimed sum of the
word's advances 10 + 2 = 12.  With the code's width 20, the word "does not
fit" (10 + 20 > 24) "but fits on an empty line" (20 ≤ 24 − 0), so word wrap
moves the cursor to a new line (baseline 8 → 18); with the claimed width 12
the word fits the remaining line (10 + 12 ≤ 24) and no wrap may happen.
The full three-character run ends with baseline 18: the code wrapped. -/
theorem C4_lookahead_sums_first_char_advance :
    remainingWordWidth testFont ['c', 'd'] = 20 ∧
    specWordWidth testFont ['c', 'd'] = 12 ∧
    wrapCursor testFont ⟨0, 0, 24, 100⟩ 10 true 'c' ['d'] 10 8 0 =
      ((0 : ℚ), (18 : Int), (0 : Nat)) ∧
    ¬((10 : ℚ) + specWordWidth testFont ['c', 'd'] >
        (((0 : Int) + (24 : Int) : Int) : ℚ)) ∧
    (testImg100.PutText testFont ⟨0, 0, 24, 100⟩ ['c', 'c', 'd'] 10
      ⟨1, 1, 1, 1⟩ true).yadvance = 18 := by
  refine ⟨?_, ?_, ?_, ?_, ?_⟩
  · norm_num [remainingWordWidth, wordLen, GetBakedChar, testFont,
      StartChar, EndChar, char_c_toNat, char_d_toNat]
  · norm_num [specWordWidth, GetBakedChar, testFont, StartChar, EndChar,
      char_c_toNat, char_d_toNat]
  · norm_num [wrapCursor, remainingWordWidth, wordLen, GetBakedChar,
      testFont, StartChar, EndChar, char_c_toNat, char_d_toNat]
  · norm_num [specWordWidth, GetBakedChar, testFont, StartChar, EndChar,
      char_c_toNat, char_d_toNat]
  · norm_num [RGBAImage.PutText, putTextLoop, putTextChar, wrapCursor,
      remainingWordWidth, wordLen, GetBakedChar, glyphWrites, testFont,
      testImg100, StartChar, EndChar, cLround, cTrunc, range_two,
      int_toNat_two, char_c_toNat, char_d_toNat, char_c_ne_newline,
      char_d_ne_newline, List.filterMap_cons, List.filterMap_nil]

theorem applyGlyphWrites_append (color : XrColor4f) (width : Int)
    (l1 l2 : List (Int × Int × Nat)) (buf : Int → RGBA8Color) :
    applyGlyphWrites color width (l1 ++ l2) buf =
      applyGlyphWrites color width l2 (applyGlyphWrites color width l1 buf) := by
  rw [applyGlyphWrites, applyGlyphWrites, applyGlyphWrites, List.foldl_append]

/-- The character loop's buffer is the fold of the blend over its write
log, starting from the initial buffer. -/
theorem putTextLoop_buf_fold (font : BakedFont) (rect : XrRect2Di)
    (width height pixelHeight : Int) (color : XrColor4f) (wordWrap : Bool)
    (buf0 : Int → RGBA8Color) :
    ∀ (text : List Char) (st : PutTextState),
      st.buf = applyGlyphWrites color width st.writes buf0 →
      (putTextLoop font rect width height pixelHeight color wordWrap
        text st).buf =
        applyGlyphWrites color width
          (putTextLoop font rect width height pixelHeight color wordWrap
            text st).writes buf0 := by
  intro text
  induction text with
  | nil =>
    intro st h
    exact h
  | cons c rest ih =>
    intro st h
    rw [putTextLoop]
    apply ih
    simp only [putTextChar]
    by_cases hnl : c = '\n'
    · rw [if_pos hnl]
      exact h
    · rw [if_neg hnl]
      rw [applyGlyphWrites_append, ← h]

/-- Floor-truncation of a nonnegative rational to `uint8_t` loses less
than one. -/
theorem truncU8_bounds {q : ℚ} (h0 : 0 ≤ q) :
    ((truncU8 q : Nat) : ℚ) ≤ q ∧ q - 1 < ((truncU8 q : Nat) : ℚ) := by
  rw [truncU8, cTrunc, if_pos h0]
  have hfl : (0 : Int) ≤ ⌊q⌋ := Int.floor_nonneg.mpr h0
  have hcast : ((⌊q⌋.toNat : Nat) : ℚ) = ((⌊q⌋ : Int) : ℚ) := by
    exact_mod_cast congrArg (fun z : Int => (z : ℚ)) (Int.toNat_of_nonneg hfl)
  rw [hcast]
  exact ⟨Int.floor_le q, Int.sub_one_lt_floor q⟩

/-- Integer division by 255 loses less than one. -/
theorem nat_div255_bounds (a : Nat) :
    ((a / 255 : Nat) : ℚ) ≤ (a : ℚ) / 255 ∧
      (a : ℚ) / 255 - 1 < ((a / 255 : Nat) : ℚ) := by
  have hmod := Nat.div_add_mod a 255
  have hlt : a % 255 < 255 := Nat.mod_lt _ (by norm_num)
  have hq : (a : ℚ) = 255 * ((a / 255 : Nat) : ℚ) + ((a % 255 : Nat) : ℚ) := by
    exact_mod_cast (congrArg (fun n : Nat => (n : ℚ)) hmod).symm
  have hmq0 : (0 : ℚ) ≤ ((a % 255 : Nat) : ℚ) := by positivity
  have hmq : ((a % 255 : Nat) : ℚ) < 255 := by exact_mod_cast hlt
  constructor
  · rw [le_div_iff₀ (by norm_num : (0 : ℚ) < 255)]
    linarith
  · rw [sub_lt_iff_lt_add, div_lt_iff₀ (by norm_num : (0 : ℚ) < 255)]
    linarith

/-- The code's per-channel blend value: it never exceeds 255 (so the
`uint8_t` store does not wrap) and differs from the exact rational
`coverage*color + dest*(1 - coverage/255)` by less than 2. -/
theorem blendChannel_bounds (cov d : Nat) (c : ℚ) (hcov : cov ≤ 255)
    (hd : d ≤ 255) (hc0 : 0 ≤ c) (hc1 : c ≤ 1) :
    truncU8 ((cov : ℚ) * c) + d * (255 - cov) / 255 ≤ 255 ∧
    ((truncU8 ((cov : ℚ) * c) + d * (255 - cov) / 255 : Nat) : ℚ) ≤
      (cov : ℚ) * c + (d : ℚ) * (1 - (cov : ℚ) / 255) ∧
    (cov : ℚ) * c + (d : ℚ) * (1 - (cov : ℚ) / 255) - 2 <
      ((truncU8 ((cov : ℚ) * c) + d * (255 - cov) / 255 : Nat) : ℚ) := by
  have hq0 : (0 : ℚ) ≤ (cov : ℚ) * c := by positivity
  obtain ⟨ht1le, ht1gt⟩ := truncU8_bounds hq0
  obtain ⟨ht2le, ht2gt⟩ := nat_div255_bounds (d * (255 - cov))
  have hqcov : (cov : ℚ) * c ≤ (cov : ℚ) := by
    calc (cov : ℚ) * c ≤ (cov : ℚ) * 1 :=
          mul_le_mul_of_nonneg_left hc1 (by positivity)
      _ = (cov : ℚ) := mul_one _
  have ht1nat : truncU8 ((cov : ℚ) * c) ≤ cov := by
    have : ((truncU8 ((cov : ℚ) * c) : Nat) : ℚ) ≤ (cov : ℚ) :=
      le_trans ht1le hqcov
    exact_mod_cast this
  have ht2nat : d * (255 - cov) / 255 ≤ 255 - cov := by
    calc d * (255 - cov) / 255 ≤ 255 * (255 - cov) / 255 :=
          Nat.div_le_div_right (Nat.mul_le_mul_right _ hd)
      _ = 255 - cov := Nat.mul_div_cancel_left _ (by norm_num)
  have hsub : ((255 - cov : Nat) : ℚ) = 255 - (cov : ℚ) := by
    push_cast [Nat.cast_sub hcov]
    ring
  have hprod : ((d * (255 - cov) : Nat) : ℚ) = (d : ℚ) * (255 - (cov : ℚ)) := by
    push_cast [Nat.cast_sub hcov]
    ring
  have hspec : (d : ℚ) * (255 - (cov : ℚ)) / 255 =
      (d : ℚ) * (1 - (cov : ℚ) / 255) := by
    ring
  refine ⟨by omega, ?_, ?_⟩
  · push_cast
    rw [hprod, hspec] at ht2le
    linarith
  · push_cast
    rw [hprod, hspec] at ht2gt
    linarith

/-- C6: the buffer produced by `PutText` is exactly the in-order fold of
the per-glyph-pixel blend over its write log; each blend updates the four
channels independently (R from R, G from G, B from B, A from A) by the
integer form of the premultiplied equation
`dest = (uint8_t)(coverage*color) + dest*(255 - coverage)/255`, which never
wraps the `uint8_t` store; and that integer value differs from the exact
rational `coverage*color + dest*(1 - coverage/255)` by less than 2. -/
theorem C6_putText_premultiplied_blend (img : RGBAImage) (font : BakedFont)
    (rect : XrRect2Di) (text : List Char) (pixelHeight : Int)
    (color : XrColor4f) (wordWrap : Bool) :
    ((img.PutText font rect text pixelHeight color wordWrap).buf =
      applyGlyphWrites color img.width
        (img.PutText font rect text pixelHeight color wordWrap).writes
        img.buf) ∧
    (∀ (cov : Nat) (col : XrColor4f) (p : RGBA8Color),
      cov ≤ 255 → p.R ≤ 255 → p.G ≤ 255 → p.B ≤ 255 → p.A ≤ 255 →
      0 ≤ col.r → col.r ≤ 1 → 0 ≤ col.g → col.g ≤ 1 →
      0 ≤ col.b → col.b ≤ 1 → 0 ≤ col.a → col.a ≤ 1 →
      blendPixel cov col p =
        ⟨truncU8 ((cov : ℚ) * col.r) + p.R * (255 - cov) / 255,
         truncU8 ((cov : ℚ) * col.g) + p.G * (255 - cov) / 255,
         truncU8 ((cov : ℚ) * col.b) + p.B * (255 - cov) / 255,
         truncU8 ((cov : ℚ) * col.a) + p.A * (255 - cov) / 255⟩) ∧
    (∀ (cov d : Nat) (c : ℚ), cov ≤ 255 → d ≤ 255 → 0 ≤ c → c ≤ 1 →
      ((truncU8 ((cov : ℚ) * c) + d * (255 - cov) / 255 : Nat) : ℚ) ≤
        (cov : ℚ) * c + (d : ℚ) * (1 - (cov : ℚ) / 255) ∧
      (cov : ℚ) * c + (d : ℚ) * (1 - (cov : ℚ) / 255) - 2 <
        ((truncU8 ((cov : ℚ) * c) + d * (255 - cov) / 255 : Nat) : ℚ)) := by
  refine ⟨?_, ?_, ?_⟩
  · exact putTextLoop_buf_fold font rect img.width img.height pixelHeight
      color wordWrap img.buf text _ rfl
  · intro cov col p hcov hR hG hB hA hr0 hr1 hg0 hg1 hb0 hb1 ha0 ha1
    rw [blendPixel]
    simp only [RGBA8Color.mk.injEq]
    refine ⟨?_, ?_, ?_, ?_⟩
    · exact Nat.mod_eq_of_lt
        (Nat.lt_succ_of_le (blendChannel_bounds cov p.R col.r hcov hR hr0 hr1).1)
    · exact Nat.mod_eq_of_lt
        (Nat.lt_succ_of_le (blendChannel_bounds cov p.G col.g hcov hG hg0 hg1).1)
    · exact Nat.mod_eq_of_lt
        (Nat.lt_succ_of_le (blendChannel_bounds cov p.B col.b hcov hB hb0 hb1).1)
    · exact Nat.mod_eq_of_lt
        (Nat.lt_succ_of_le (blendChannel_bounds cov p.A col.a hcov hA ha0 ha1).1)
  · intro cov d c hcov hd hc0 hc1
    exact ⟨(blendChannel_bounds cov d c hcov hd hc0 hc1).2.1,
      (blendChannel_bounds cov d c hcov hd hc0 hc1).2.2⟩

/-- Witness for C6: the one-character run's buffer is the blend fold of its
writes, and the blend equation at coverage 100 over black and over full
alpha. -/
theorem C6_putText_premultiplied_blend_witness :
    ((testImg100.PutText testFont ⟨0, 0, 24, 100⟩ ['c'] 10 ⟨1, 1, 1, 1⟩
        true).buf =
      applyGlyphWrites ⟨1, 1, 1, 1⟩ testImg100.width
        (testImg100.PutText testFont ⟨0, 0, 24, 100⟩ ['c'] 10 ⟨1, 1, 1, 1⟩
          true).writes testImg100.buf) ∧
    (blendPixel 100 ⟨1, 1, 1, 1⟩ ⟨0, 0, 0, 255⟩ =
      ⟨truncU8 ((100 : ℚ) * 1) + 0 * (255 - 100) / 255,
       truncU8 ((100 : ℚ) * 1) + 0 * (255 - 100) / 255,
       truncU8 ((100 : ℚ) * 1) + 0 * (255 - 100) / 255,
       truncU8 ((100 : ℚ) * 1) + 255 * (255 - 100) / 255⟩) ∧
    (((truncU8 ((100 : ℚ) * 1) + 255 * (255 - 100) / 255 : Nat) : ℚ) ≤
        (100 : ℚ) * 1 + (255 : ℚ) * (1 - (100 : ℚ) / 255) ∧
      (100 : ℚ) * 1 + (255 : ℚ) * (1 - (100 : ℚ) / 255) - 2 <
        ((truncU8 ((100 : ℚ) * 1) + 255 * (255 - 100) / 255 : Nat) : ℚ)) :=
  ⟨(C6_putText_premultiplied_blend testImg100 testFont ⟨0, 0, 24, 100⟩ ['c']
      10 ⟨1, 1, 1, 1⟩ true).1,
   (C6_putText_premultiplied_blend testImg100 testFont ⟨0, 0, 24, 100⟩ ['c']
      10 ⟨1, 1, 1, 1⟩ true).2.1 100 ⟨1, 1, 1, 1⟩ ⟨0, 0, 0, 255⟩
      (by norm_num) (by norm_num) (by norm_num) (by norm_num) (by norm_num)
      (by norm_num) (by norm_num) (by norm_num) (by norm_num) (by norm_num)
      (by norm_num) (by norm_num) (by norm_num),
   (C6_putText_premultiplied_blend testImg100 testFont ⟨0, 0, 24, 100⟩ ['c']
      10 ⟨1, 1, 1, 1⟩ true).2.2 100 255 1 (by norm_num) (by norm_num)
      (by norm_num) (by norm_num)⟩

end Conformance
